import Mathlib

/-!
Verification of the qlp Quake III Arena log parser (Go).

The repository holds two historical variants of the parsing engine, both in
package `qlp`:

* variant A (file `src/unnamed/part_000`, second document): the state-machine
  variant.  `ParseLog` checks a line-header regular expression on every line,
  strips the header and dispatches the remaining event payload to the current
  event parser (`lookingForGameParser` or `matchParser`).  A match is closed by
  an event payload beginning with `---` (a divider line); the accumulator is
  then finalized into a `Match` value.
* variant B (file `src/qlp/qlp.go`): the `InitGame`-separator variant.
  `ParseLog` skips lines until the first `InitGame`/`Kill` event, uses
  `InitGame` lines as match separators and appends the final accumulator when
  the input ends.

Both variants are embedded below (namespaces `Qlp.A` and `Qlp.B`), faithful to
the Go source: strings are Lean strings, `map[string]int` becomes an
association list in insertion order, `map[string]struct{}` becomes a list of
keys in insertion order, and the two regular expressions are compiled into
explicit matching functions whose backtracking preferences (leftmost start,
alternation order, greedy quantifiers) follow Go's regexp semantics.  Fallible
parsing returns `Except String`.
-/

namespace Qlp

/-- Character class of Go's regexp `\s`, namely `[\t\n\f\r ]`. -/
def isSpaceChar (c : Char) : Bool :=
  c = ' ' || c = '\t' || c = '\n' || c = '\x0c' || c = '\r'

/-- Character class of Go's regexp `\d`, namely `[0-9]`. -/
def isDigitChar (c : Char) : Bool :=
  '0' ≤ c && c ≤ '9'

/-- Character class of Go's regexp `\w`, namely `[0-9A-Za-z_]`. -/
def isWordChar (c : Char) : Bool :=
  isDigitChar c || ('A' ≤ c && c ≤ 'Z') || ('a' ≤ c && c ≤ 'z') || c = '_'

/-- Character class `[\d\s:]` used by the line-header expression of variant A. -/
def headerClass (c : Char) : Bool :=
  isDigitChar c || isSpaceChar c || c = ':'

/-- `startsWithL pat l` is true when `pat` is a prefix of `l`. -/
def startsWithL : List Char → List Char → Bool
  | [], _ => true
  | _ :: _, [] => false
  | a :: as, b :: bs => a = b && startsWithL as bs

/-- Models Go's `strings.HasPrefix s pat`. -/
def strStartsWith (s pat : String) : Bool :=
  startsWithL pat.data s.data

/-- Consume the literal `lit` at the head of `l`, returning the rest. -/
def stripLit (lit : String) (l : List Char) : Option (List Char) :=
  if startsWithL lit.data l then some (l.drop lit.data.length) else none

/-- Consume one `\s` character. -/
def oneSpace : List Char → Option (List Char)
  | c :: r => if isSpaceChar c then some r else none
  | [] => none

/-- Consume one fixed character. -/
def oneChar (c : Char) : List Char → Option (List Char)
  | d :: r => if d = c then some r else none
  | [] => none

/-- Consume `\d+` (greedy; the following pattern characters in this parser are
never digits, so maximal munch is exact). -/
def takeDigits1 (l : List Char) : Option (List Char) :=
  if (l.takeWhile isDigitChar).isEmpty then none else some (l.dropWhile isDigitChar)

/-- Consume `\s word \s` (one space character, the literal word, one space
character) at the head of `t`, as in the regexp fragments `\skilled\s` and
`\sby\s`. -/
def sepAround (word : String) : List Char → Option (List Char)
  | c :: r =>
    if isSpaceChar c then
      match stripLit word r with
      | some r2 => oneSpace r2
      | none => none
    else none
  | [] => none

/-- All decompositions `l = l.take i ++ l.drop i`, ordered by increasing prefix
length.  Greedy (longest-prefix) capture preference selects the last viable
entry. -/
def splits (l : List Char) : List (List Char × List Char) :=
  (List.range (l.length + 1)).map (fun i => (l.take i, l.drop i))

/-- Lexicographic comparison of character lists by code point; this is the
order used by Go's `slices.Sort` on the ASCII player names of this program. -/
def lexLe : List Char → List Char → Bool
  | [], _ => true
  | _ :: _, [] => false
  | a :: as, b :: bs => if a = b then lexLe as bs else decide (a < b)

/-- The sorting relation on strings induced by `lexLe`. -/
def strLeRel (a b : String) : Prop :=
  lexLe a.data b.data = true

instance : DecidableRel strLeRel := fun a b =>
  inferInstanceAs (Decidable (lexLe a.data b.data = true))

/-- Signed counters: the model of Go's `map[string]int`, keys in insertion
order.  An absent key reads as the zero value, exactly as in Go. -/
def getD : List (String × Int) → String → Int
  | [], _ => 0
  | (k, v) :: t, x => if k = x then v else getD t x

/-- Membership of a key, modelling Go's `_, ok := m[k]`. -/
def hasKey : List (String × Int) → String → Bool
  | [], _ => false
  | (k, _) :: t, x => k = x || hasKey t x

/-- Models Go's `m[k] += d` (and `m[k]--` for `d = -1`): update in place, or
append the key with value `0 + d` when absent. -/
def addD : List (String × Int) → String → Int → List (String × Int)
  | [], x, d => [(x, d)]
  | (k, v) :: t, x, d => if k = x then (k, v + d) :: t else (k, v) :: addD t x d

/-- Models `if _, ok := m[k]; !ok { m[k] = 0 }`. -/
def ensure0 (m : List (String × Int)) (x : String) : List (String × Int) :=
  if hasKey m x then m else m ++ [(x, 0)]

/-- Models insertion into a `map[string]struct{}` used as a set, keys in
insertion order. -/
def insertP (s : List String) (x : String) : List String :=
  if x ∈ s then s else s ++ [x]

/-- The `Match` record of both variants: total kills, the player roster, the
per-player kill differentials and the per-cause kill counts. -/
structure Match where
  TotalKills : Nat
  Players : List String
  Kills : List (String × Int)
  KillsByMeans : List (String × Int)
deriving DecidableEq

namespace A

/-!
Variant A: the state-machine parser of `src/unnamed/part_000` (second
document of that file, package `qlp`).
-/

/-- First alternative of `lineHeaderExpr`, the fragment `^\s*\d+:\d+\s`.
Returns the rest of the line after the matched header.  The classes `\s` and
`\d` and the literal `:` are pairwise disjoint, so the greedy quantifiers are
deterministic and maximal munch is exact. -/
def matchAlt1 (l : List Char) : Option (List Char) :=
  let r1 := l.dropWhile isSpaceChar
  if (r1.takeWhile isDigitChar).isEmpty then none
  else
    match r1.dropWhile isDigitChar with
    | ':' :: r3 =>
      if (r3.takeWhile isDigitChar).isEmpty then none
      else
        match r3.dropWhile isDigitChar with
        | c :: r5 => if isSpaceChar c then some r5 else none
        | [] => none
    | _ => none

/-- Second alternative of `lineHeaderExpr`, the fragment `^\s*[\d\s:]+`.
Since `\s` is contained in the class `[\d\s:]`, the greedy match consumes
exactly the maximal prefix of class characters, and succeeds when that prefix
is nonempty. -/
def matchAlt2 (l : List Char) : Option (List Char) :=
  if (l.takeWhile headerClass).isEmpty then none else some (l.dropWhile headerClass)

/-- Models `lineHeaderExpr.FindStringIndex(line)` followed by
`line[indexes[1]:]`: the event payload after the line header, or `none` when
the line is malformed.  Both alternatives are anchored, and Go's leftmost-first
semantics prefers the first alternative. -/
def lineHeaderMatch (line : String) : Option String :=
  match matchAlt1 line.data with
  | some r => some (String.mk r)
  | none =>
    match matchAlt2 line.data with
    | some r => some (String.mk r)
    | none => none

/-- The non-capturing prefix `Kill:\s\d+\s\d+\s\d+:\s` of variant A's
`killExpr`, anchored at the given position. -/
def killBody (l : List Char) : Option (List Char) := do
  let r ← stripLit "Kill:" l
  let r ← oneSpace r
  let r ← takeDigits1 r
  let r ← oneSpace r
  let r ← takeDigits1 r
  let r ← oneSpace r
  let r ← takeDigits1 r
  let r ← oneChar ':' r
  oneSpace r

/-- The fragment `(.+)(?:\sby\s)([\w]+)` of variant A's `killExpr`: the victim
capture (greedy, hence the longest prefix admitting a parse of the remainder)
and the cause capture (a maximal nonempty run of word characters). -/
def victimSplit (r : List Char) : Option (String × String) :=
  ((splits r).filterMap (fun p =>
    if p.1.isEmpty then none
    else
      match sepAround "by" p.2 with
      | some w =>
        if (w.takeWhile isWordChar).isEmpty then none
        else some (String.mk p.1, String.mk (w.takeWhile isWordChar))
      | none => none)).getLast?

/-- The fragment `(.+)(?:\skilled\s)(.+)(?:\sby\s)([\w]+)`: the killer capture
is greedy, so among all decompositions whose remainder fully parses, the
longest killer prefix wins. -/
def killerSplit (t : List Char) : Option (String × String × String) :=
  ((splits t).filterMap (fun p =>
    if p.1.isEmpty then none
    else
      match sepAround "killed" p.2 with
      | some r =>
        match victimSplit r with
        | some (v, c) => some (String.mk p.1, v, c)
        | none => none
      | none => none)).getLast?

/-- Variant A's `killExpr` anchored at the start of `l`. -/
def killAt (l : List Char) : Option (String × String × String) :=
  match killBody l with
  | some t => killerSplit t
  | none => none

/-- Unanchored search: Go's `FindStringSubmatch` matches at the leftmost
feasible start position. -/
def killSearchL : List Char → Option (String × String × String)
  | [] => none
  | l :: t =>
    match killAt (l :: t) with
    | some r => some r
    | none => killSearchL t

/-- Models `killExpr.FindStringSubmatch(event)` of variant A, returning the
three captures (killer, victim, cause) or `none`. -/
def killExprFind (event : String) : Option (String × String × String) :=
  killSearchL event.data

/-- The mutable accumulator `matchParser` of variant A. -/
structure matchParser where
  totalKills : Nat
  players : List String
  kills : List (String × Int)
  killsByMeans : List (String × Int)
deriving DecidableEq

/-- `newMatchParser`: zero total and empty maps. -/
def newMatchParser : matchParser :=
  ⟨0, [], [], []⟩

/-- The loop body `for _, player := range [...]string{killer, killed}` of
`registerKill`: the environment sentinel is skipped; otherwise the kills map
gains a zero entry when absent and the player joins the player set. -/
def addPlayer (m : matchParser) (player : String) : matchParser :=
  if player = "<world>" then m
  else { m with kills := ensure0 m.kills player, players := insertP m.players player }

/-- `matchParser.registerKill`: increment the total, record both non-sentinel
participants, attribute the kill (environment kills decrement the victim,
self-kills change no differential), and count the cause. -/
def registerKill (m : matchParser) (killer killed killedBy : String) : matchParser :=
  let m1 := { m with totalKills := m.totalKills + 1 }
  let m2 := addPlayer (addPlayer m1 killer) killed
  let m3 :=
    if killer = "<world>" then { m2 with kills := addD m2.kills killed (-1) }
    else if killer = killed then m2
    else { m2 with kills := addD m2.kills killer 1 }
  { m3 with killsByMeans := addD m3.killsByMeans killedBy 1 }

/-- `matchParser.getPlayerList`: the player set as a slice, sorted
alphabetically by `slices.Sort` (modelled as an insertion sort producing the
sorted permutation under the code-point order `strLeRel`). -/
def getPlayerList (m : matchParser) : List String :=
  List.insertionSort strLeRel m.players

/-- Finalization of the accumulator into a `Match`, as built at the `---`
branch of `matchParser.parseEvent`. -/
def finishMatch (m : matchParser) : Match :=
  ⟨m.totalKills, getPlayerList m, m.kills, m.killsByMeans⟩

/-- The `eventParser` interface state: `lookingForGameParser` or a
`*matchParser`. -/
inductive evParserT where
  | looking : evParserT
  | inMatch : matchParser → evParserT
deriving DecidableEq

/-- The `logParser` record: current event parser and finalized matches. -/
structure logParser where
  evParser : evParserT
  matchList : List Match
deriving DecidableEq

/-- `newLogParser`: starts in the looking-for-game state with no matches. -/
def newLogParser : logParser :=
  ⟨.looking, []⟩

/-- `logParser.parseEvent`: dispatch the event payload to the current event
parser and store the returned next parser.  `lookingForGameParser` opens a
fresh accumulator on an `InitGame:` prefix; `matchParser` finalizes and
appends on a `---` prefix, registers a kill when `killExpr` matches, and
otherwise ignores the event.  Neither event parser can fail in the source, so
this step is total. -/
def parseEvent (p : logParser) (ev : String) : logParser :=
  match p.evParser with
  | .looking =>
    if strStartsWith ev "InitGame:" then { p with evParser := .inMatch newMatchParser } else p
  | .inMatch m =>
    if strStartsWith ev "---" then
      { evParser := .looking, matchList := p.matchList ++ [finishMatch m] }
    else
      match killExprFind ev with
      | some (killer, killed, killedBy) =>
        { p with evParser := .inMatch (registerKill m killer killed killedBy) }
      | none => p

/-- The scan loop of variant A's `ParseLog`, carrying the 1-indexed number of
the next line. -/
def ParseLogGo (p : logParser) (n : Nat) : List String → Except String (List Match)
  | [] =>
    match p.evParser with
    | .inMatch _ => .error "log entries ended while a match was still open"
    | .looking => .ok p.matchList
  | l :: ls =>
    match lineHeaderMatch l with
    | none => .error ("line " ++ Nat.repr n ++ " is malformed")
    | some ev => ParseLogGo (parseEvent p ev) (n + 1) ls

/-- Variant A's `ParseLog`, with the input stream as a list of lines.  A
malformed line aborts with its 1-indexed number; input ending inside a match
aborts with the unterminated-match error; an error returns no matches. -/
def ParseLog (lines : List String) : Except String (List Match) :=
  ParseLogGo newLogParser 1 lines

/-- The pure fold of the event loop of `ParseLog`, ignoring header failures
(only used under the hypothesis that every header matches). -/
def processAll (p : logParser) : List String → logParser
  | [] => p
  | l :: ls => processAll (parseEvent p ((lineHeaderMatch l).getD "")) ls

end A

namespace B

/-!
Variant B: the `InitGame`-separator parser of `src/qlp/qlp.go`.
-/

/-- The non-capturing header fragment `^(?:\s+\d{1,2}:\d{2}\s)` shared by
`eventExpr` and `killExpr` of variant B: at least one space, one or two
digits, a colon, exactly two digits, one space.  `\s` and `\d` are disjoint,
so the greedy `\s+` is deterministic; `\d{1,2}` succeeds exactly when the
maximal digit run has length one or two and is followed by the colon. -/
def headerB (l : List Char) : Option (List Char) :=
  match l with
  | c :: r =>
    if isSpaceChar c then
      let r1 := r.dropWhile isSpaceChar
      let ds := r1.takeWhile isDigitChar
      if ds.length = 0 || 2 < ds.length then none
      else
        match r1.dropWhile isDigitChar with
        | ':' :: d1 :: d2 :: r4 =>
          if isDigitChar d1 && isDigitChar d2 then
            match r4 with
            | c2 :: r5 => if isSpaceChar c2 then some r5 else none
            | [] => none
          else none
        | _ => none
    else none
  | [] => none

/-- Models `eventExpr.FindStringSubmatch(line)` of variant B, returning the
capture of `(InitGame|Kill)` after the header, or `none`.  The alternation
prefers `InitGame`. -/
def eventExprFind (line : String) : Option String :=
  match headerB line.data with
  | some r =>
    if startsWithL "InitGame".data r then some "InitGame"
    else if startsWithL "Kill".data r then some "Kill"
    else none
  | none => none

/-- The fragment `(?:Kill:\s[\d\s]+:\s)` of variant B's `killExpr`.  The class
`[\d\s]` excludes `:`, so the greedy run is exact. -/
def killBodyB (l : List Char) : Option (List Char) := do
  let r ← stripLit "Kill:" l
  let r ← oneSpace r
  let run := r.takeWhile (fun c => isDigitChar c || isSpaceChar c)
  if run.isEmpty then none
  else
    let r2 ← oneChar ':' (r.dropWhile (fun c => isDigitChar c || isSpaceChar c))
    oneSpace r2

/-- The fragment `(.+)(?:\sby\s)(.+)` of variant B's `killExpr`: the cause
capture is `.+`, a greedy run to the end of the line. -/
def victimSplitB (r : List Char) : Option (String × String) :=
  ((splits r).filterMap (fun p =>
    if p.1.isEmpty then none
    else
      match sepAround "by" p.2 with
      | some w => if w.isEmpty then none else some (String.mk p.1, String.mk w)
      | none => none)).getLast?

/-- The fragment `(.+)(?:\skilled\s)(.+)(?:\sby\s)(.+)` with greedy captures. -/
def killerSplitB (t : List Char) : Option (String × String × String) :=
  ((splits t).filterMap (fun p =>
    if p.1.isEmpty then none
    else
      match sepAround "killed" p.2 with
      | some r =>
        match victimSplitB r with
        | some (v, c) => some (String.mk p.1, v, c)
        | none => none
      | none => none)).getLast?

/-- Models `killExpr.FindStringSubmatch(line)` of variant B (anchored by `^`),
returning the captures (killer, victim, cause) or `none`. -/
def killExprFindB (line : String) : Option (String × String × String) := do
  let r ← headerB line.data
  let r ← killBodyB r
  killerSplitB r

/-- The mutable accumulator `matchInfo` of variant B. -/
structure matchInfo where
  totalKills : Nat
  players : List String
  kills : List (String × Int)
  killsByMeans : List (String × Int)
deriving DecidableEq

/-- `newMatchInfo`: zero total and empty maps. -/
def newMatchInfo : matchInfo :=
  ⟨0, [], [], []⟩

/-- The loop body of `registerKillEvent` over `[...]string{killer, killed}`:
the sentinel is skipped; otherwise the player joins the set and the kills map
gains a zero entry when absent. -/
def addPlayerInfo (m : matchInfo) (player : String) : matchInfo :=
  if player = "<world>" then m
  else { m with players := insertP m.players player, kills := ensure0 m.kills player }

/-- `matchInfo.registerKillEvent`: record both non-sentinel participants,
attribute the kill (environment kills decrement the victim, any other killer
is incremented, including a self-kill), and count the cause.  Note the source
never touches `totalKills` here. -/
def registerKillEvent (m : matchInfo) (killer killed means : String) : matchInfo :=
  let m1 := addPlayerInfo (addPlayerInfo m killer) killed
  let m2 :=
    if killer = "<world>" then { m1 with kills := addD m1.kills killed (-1) }
    else { m1 with kills := addD m1.kills killer 1 }
  { m2 with killsByMeans := addD m2.killsByMeans means 1 }

/-- `matchInfo.getPlayerList`: the keys of the player set, with no sorting.
Go iterates the map in an unspecified order; the model reads out the keys in
insertion order (one admissible iteration order). -/
def getPlayerList (m : matchInfo) : List String :=
  m.players

/-- Finalization of the accumulator into a `Match`, as built at both append
sites of variant B's `ParseLog`. -/
def mkMatch (m : matchInfo) : Match :=
  ⟨m.totalKills, getPlayerList m, m.kills, m.killsByMeans⟩

/-- `skipInitGameEvent`: consume lines until (and including) the first line
matching `eventExpr`. -/
def skipInitGameEvent (lines : List String) : List String :=
  (lines.dropWhile (fun l => (eventExprFind l).isNone)).drop 1

/-- The scan loop of variant B's `ParseLog`: irrelevant lines are skipped,
`InitGame` lines finalize the current accumulator and open a fresh one, and a
line classified as a kill event must match `killExpr` or parsing fails.  When
the input ends, the final accumulator is appended unconditionally. -/
def ParseLogLoop (cur : matchInfo) (acc : List Match) : List String → Except String (List Match)
  | [] => .ok (acc ++ [mkMatch cur])
  | l :: ls =>
    match eventExprFind l with
    | none => ParseLogLoop cur acc ls
    | some ev =>
      if ev = "InitGame" then ParseLogLoop newMatchInfo (acc ++ [mkMatch cur]) ls
      else
        match killExprFindB l with
        | some (killer, killed, killedBy) =>
          ParseLogLoop (registerKillEvent cur killer killed killedBy) acc ls
        | none => .error ("failed to find expected kill event at line " ++ l)

/-- Variant B's `ParseLog`: skip up to the first event, then run the loop.
This variant has no malformed-line or unterminated-match error; every input
that does not fail the kill pattern yields at least one (possibly empty)
match. -/
def ParseLog (lines : List String) : Except String (List Match) :=
  ParseLogLoop newMatchInfo [] (skipInitGameEvent lines)

end B

namespace A

/-- Successful header check of a line, as in the loop of variant A's
`ParseLog`. -/
def headerOk (l : String) : Bool :=
  (lineHeaderMatch l).isSome

/-- Whether the event parser state is a `*matchParser`, the check performed by
variant A's `ParseLog` after the scan loop. -/
def isOpen : evParserT → Bool
  | .looking => false
  | .inMatch _ => true

/-- A line is benign for the roster/kills key invariant unless it carries a
kill event whose killer and victim are both the environment sentinel (the one
event shape that writes a sentinel key into the kills map). -/
def killOK (l : String) : Bool :=
  match lineHeaderMatch l with
  | none => true
  | some ev =>
    match killExprFind ev with
    | none => true
    | some (k, v, _) => !(decide (k = "<world>") && decide (v = "<world>"))

/-- Invariant carried through a run of variant A: every finalized match has a
sorted, duplicate-free roster, and the open accumulator (if any) has a
duplicate-free player set. -/
def sortedInv (q : logParser) : Prop :=
  (∀ x ∈ q.matchList, List.Sorted (· ≤ ·) x.Players ∧ x.Players.Nodup) ∧
    (∀ acc, q.evParser = .inMatch acc → acc.players.Nodup)

/-- Invariant carried through a run of variant A: every finalized match has as
many roster entries as kills keys, and the open accumulator (if any) has its
kills keys equal to its player set (in insertion order). -/
def keysInv (q : logParser) : Prop :=
  (∀ x ∈ q.matchList, x.Players.length = x.Kills.length) ∧
    (∀ acc, q.evParser = .inMatch acc → acc.kills.map Prod.fst = acc.players)

end A

/-- The loop body of `Matches.MarshalJSON`: for index `i` (0-based) write
`"game_<i+1>":` followed by the match's serialization, and a comma when
another match follows.  The serialization of a single `Match` by
`encoding/json` is abstracted as the parameter `enc`. -/
def marshalLoop (enc : Match → String) (total : Nat) : Nat → List Match → String
  | _, [] => ""
  | i, g :: gs =>
    "\"game_" ++ Nat.repr (i + 1) ++ "\":" ++ enc g ++
      (if i < total - 1 then "," else "") ++ marshalLoop enc total (i + 1) gs

/-- `Matches.MarshalJSON` (identical in both variants): a JSON object opened
with a brace, the loop over the matches, and a closing brace. -/
def MarshalJSON (enc : Match → String) (ms : List Match) : String :=
  "\x7b" ++ marshalLoop enc ms.length 0 ms ++ "\x7d"

/-- Modelled from the spec: the expected key sequence `game_1`, …, `game_N`,
1-indexed, in order. -/
def specGameKeys (n : Nat) : List String :=
  (List.range n).map (fun i => "game_" ++ Nat.repr (i + 1))

/-- Generalization of `specGameKeys` to an arbitrary starting index, used to
state the loop invariant of `MarshalJSON`. -/
def gameKeysFrom (i n : Nat) : List String :=
  (List.range n).map (fun j => "game_" ++ Nat.repr (i + j + 1))

/-- Modelled from the spec: the body of a JSON object whose ordered fields are
the given key/match pairs, comma-separated. -/
def specJoinPairs (enc : Match → String) : List (String × Match) → String
  | [] => ""
  | [(k, g)] => "\"" ++ k ++ "\":" ++ enc g
  | (k, g) :: p :: t => "\"" ++ k ++ "\":" ++ enc g ++ "," ++ specJoinPairs enc (p :: t)

/-- Modelled from the spec: a JSON object with exactly the keys
`game_1 … game_N` in sequence order, each mapped to the corresponding match's
serialization. -/
def specMarshal (enc : Match → String) (ms : List Match) : String :=
  "\x7b" ++ specJoinPairs enc ((specGameKeys ms.length).zip ms) ++ "\x7d"

/-- The wording of the blank-line claim: the line is empty, or its first
character is not a digit, not a colon and not a whitespace character. -/
def noHeaderStart (l : String) : Bool :=
  match l.data with
  | [] => true
  | c :: _ => !headerClass c

/-!
Order facts: the comparison `lexLe` agrees with the lexicographic linear
order on strings, so `insertionSort strLeRel` sorts ascending.
-/

theorem lexLe_iff_not_lex (as : List Char) :
    ∀ bs, lexLe as bs = true ↔ ¬ List.Lex (· < ·) bs as := by
  induction as with
  | nil =>
    intro bs
    constructor
    · intro _ h
      cases h
    · intro _
      rfl
  | cons a xs ih =>
    intro bs
    cases bs with
    | nil =>
      constructor
      · intro h
        exact absurd h (by simp [lexLe])
      · intro h
        exact absurd List.Lex.nil h
    | cons b bt =>
      by_cases hab : a = b
      · subst hab
        simp only [lexLe]
        rw [if_pos trivial, ih bt]
        constructor
        · intro h hl
          cases hl with
          | rel hr => exact absurd hr (lt_irrefl a)
          | cons hc => exact h hc
        · intro h hc
          exact h (List.Lex.cons hc)
      · simp only [lexLe]
        rw [if_neg hab, decide_eq_true_eq]
        constructor
        · intro h hl
          cases hl with
          | rel hr => exact absurd hr (lt_asymm h)
          | cons hc => exact hab rfl
        · intro h
          rcases lt_trichotomy a b with h1 | h1 | h1
          · exact h1
          · exact absurd h1 hab
          · exact absurd (List.Lex.rel h1) h

theorem strLeRel_iff_le (a b : String) : strLeRel a b ↔ a ≤ b := by
  rw [← not_lt, String.lt_iff_toList_lt]
  exact lexLe_iff_not_lex a.data b.data

theorem getPlayerList_sorted (m : A.matchParser) :
    List.Sorted (· ≤ ·) (A.getPlayerList m) := by
  haveI : IsTotal String strLeRel :=
    ⟨fun a b => by
      rcases le_total a b with h | h
      · exact Or.inl ((strLeRel_iff_le a b).mpr h)
      · exact Or.inr ((strLeRel_iff_le b a).mpr h)⟩
  haveI : IsTrans String strLeRel :=
    ⟨fun a b c hab hbc =>
      (strLeRel_iff_le a c).mpr
        (le_trans ((strLeRel_iff_le a b).mp hab) ((strLeRel_iff_le b c).mp hbc))⟩
  exact (List.sorted_insertionSort strLeRel m.players).imp fun h => (strLeRel_iff_le _ _).mp h

theorem getPlayerList_perm (m : A.matchParser) :
    (A.getPlayerList m).Perm m.players :=
  List.perm_insertionSort strLeRel m.players

theorem getPlayerList_nodup (m : A.matchParser) (h : m.players.Nodup) :
    (A.getPlayerList m).Nodup :=
  ((getPlayerList_perm m).nodup_iff).mpr h

theorem getPlayerList_length (m : A.matchParser) :
    (A.getPlayerList m).length = m.players.length :=
  (getPlayerList_perm m).length_eq

/-!
Association-list facts about the map model.
-/

theorem getD_addD_self (m : List (String × Int)) (k : String) (d : Int) :
    getD (addD m k d) k = getD m k + d := by
  induction m with
  | nil => simp [addD, getD]
  | cons p t ih =>
    obtain ⟨q, v⟩ := p
    by_cases h : q = k
    · subst h
      simp [addD, getD]
    · simp [addD, getD, h, ih]

theorem getD_addD_ne (m : List (String × Int)) (k x : String) (d : Int) (h : k ≠ x) :
    getD (addD m k d) x = getD m x := by
  induction m with
  | nil => simp [addD, getD, h]
  | cons p t ih =>
    obtain ⟨q, v⟩ := p
    by_cases hq : q = k
    · subst hq
      simp [addD, getD, h, ih]
    · simp [addD, getD, hq, ih]

theorem hasKey_append (m₁ m₂ : List (String × Int)) (x : String) :
    hasKey (m₁ ++ m₂) x = (hasKey m₁ x || hasKey m₂ x) := by
  induction m₁ with
  | nil => simp [hasKey]
  | cons p t ih =>
    obtain ⟨q, v⟩ := p
    simp [hasKey, ih, Bool.or_assoc]

theorem getD_append (m₁ m₂ : List (String × Int)) (x : String) :
    getD (m₁ ++ m₂) x = if hasKey m₁ x then getD m₁ x else getD m₂ x := by
  induction m₁ with
  | nil => simp [hasKey, getD]
  | cons p t ih =>
    obtain ⟨q, v⟩ := p
    by_cases h : q = x
    · subst h
      simp [hasKey, getD]
    · simp [hasKey, getD, h, ih]

theorem getD_eq_zero_of_not_hasKey (m : List (String × Int)) (x : String)
    (h : ¬ hasKey m x = true) : getD m x = 0 := by
  induction m with
  | nil => rfl
  | cons p t ih =>
    obtain ⟨q, v⟩ := p
    simp only [hasKey, Bool.or_eq_true, not_or] at h
    simp only [getD, if_neg (by simpa using h.1 : ¬ q = x)]
    exact ih h.2

theorem getD_ensure0 (m : List (String × Int)) (k x : String) :
    getD (ensure0 m k) x = getD m x := by
  unfold ensure0
  by_cases h : hasKey m k
  · rw [if_pos h]
  · rw [if_neg h, getD_append]
    by_cases hx : hasKey m x
    · rw [if_pos hx]
    · rw [if_neg hx, getD_eq_zero_of_not_hasKey m x hx]
      by_cases hkx : k = x
      · subst hkx
        simp [getD]
      · simp [getD, hkx]

theorem hasKey_addD (m : List (String × Int)) (k x : String) (d : Int) :
    hasKey (addD m k d) x = true ↔ (hasKey m x = true ∨ x = k) := by
  induction m with
  | nil => simp [addD, hasKey, eq_comm]
  | cons p t ih =>
    obtain ⟨q, v⟩ := p
    by_cases hq : q = k
    · subst hq
      simp only [addD, if_pos rfl, hasKey, Bool.or_eq_true]
      constructor
      · intro h
        exact Or.inl h
      · rintro ((h | h) | rfl)
        · exact Or.inl h
        · exact Or.inr h
        · exact Or.inl (by simp)
    · simp [addD, hasKey, hq, ih, or_assoc]

theorem hasKey_ensure0 (m : List (String × Int)) (k x : String) :
    hasKey (ensure0 m k) x = true ↔ (hasKey m x = true ∨ x = k) := by
  unfold ensure0
  by_cases h : hasKey m k
  · rw [if_pos h]
    constructor
    · exact Or.inl
    · rintro (hx | rfl)
      · exact hx
      · exact h
  · rw [if_neg h, hasKey_append]
    simp only [hasKey, Bool.or_eq_true, Bool.or_false, decide_eq_true_eq]
    exact or_congr Iff.rfl eq_comm

theorem keys_addD_of_hasKey (m : List (String × Int)) (k : String) (d : Int)
    (h : hasKey m k = true) : (addD m k d).map Prod.fst = m.map Prod.fst := by
  induction m with
  | nil => simp [hasKey] at h
  | cons p t ih =>
    obtain ⟨q, v⟩ := p
    by_cases hq : q = k
    · subst hq
      simp only [addD]
      rw [if_pos trivial]
      rfl
    · simp only [hasKey, Bool.or_eq_true] at h
      rcases h with h | h
      · exact absurd (by simpa using h) hq
      · simp [addD, hq, ih h]

theorem keys_ensure0 (m : List (String × Int)) (k : String) :
    (ensure0 m k).map Prod.fst =
      if hasKey m k then m.map Prod.fst else m.map Prod.fst ++ [k] := by
  unfold ensure0
  by_cases h : hasKey m k
  · rw [if_pos h, if_pos h]
  · rw [if_neg h, if_neg h, List.map_append]
    rfl

theorem hasKey_iff_mem (m : List (String × Int)) (x : String) :
    hasKey m x = true ↔ x ∈ m.map Prod.fst := by
  induction m with
  | nil => simp [hasKey]
  | cons p t ih =>
    obtain ⟨q, v⟩ := p
    simp only [hasKey, Bool.or_eq_true, decide_eq_true_eq, ih, List.map_cons, List.mem_cons]
    exact or_congr eq_comm Iff.rfl

theorem mem_insertP (s : List String) (x y : String) :
    y ∈ insertP s x ↔ y ∈ s ∨ y = x := by
  unfold insertP
  by_cases h : x ∈ s
  · rw [if_pos h]
    constructor
    · exact Or.inl
    · rintro (hy | rfl)
      · exact hy
      · exact h
  · rw [if_neg h]
    simp

theorem insertP_nodup (s : List String) (x : String) (h : s.Nodup) :
    (insertP s x).Nodup := by
  unfold insertP
  by_cases hx : x ∈ s
  · rwa [if_pos hx]
  · rw [if_neg hx]
    simp [List.nodup_append, h, hx]

/-!
Facts about the variant A accumulator operations.
-/

theorem addPlayer_totalKills (m : A.matchParser) (p : String) :
    (A.addPlayer m p).totalKills = m.totalKills := by
  unfold A.addPlayer
  split <;> rfl

theorem addPlayer_players (m : A.matchParser) (p : String) :
    (A.addPlayer m p).players =
      if p = "<world>" then m.players else insertP m.players p := by
  unfold A.addPlayer
  split <;> rfl

theorem addPlayer_players_nodup (m : A.matchParser) (p : String)
    (h : m.players.Nodup) : (A.addPlayer m p).players.Nodup := by
  rw [addPlayer_players]
  split
  · exact h
  · exact insertP_nodup _ _ h

theorem addPlayer_keys (m : A.matchParser) (p : String)
    (hm : m.kills.map Prod.fst = m.players) :
    (A.addPlayer m p).kills.map Prod.fst = (A.addPlayer m p).players := by
  unfold A.addPlayer
  split
  · exact hm
  · show (ensure0 m.kills p).map Prod.fst = insertP m.players p
    rw [keys_ensure0]
    unfold insertP
    by_cases hk : hasKey m.kills p
    · have hp : p ∈ m.players := by
        rw [← hm]
        exact (hasKey_iff_mem m.kills p).mp hk
      rw [if_pos hk, if_pos hp]
      exact hm
    · have hp : p ∉ m.players := by
        intro hmem
        apply hk
        apply (hasKey_iff_mem m.kills p).mpr
        rw [hm]
        exact hmem
      rw [if_neg hk, if_neg hp, hm]

theorem addPlayer_hasKey (m : A.matchParser) (p x : String) :
    hasKey (A.addPlayer m p).kills x = true ↔
      (hasKey m.kills x = true ∨ (¬ p = "<world>" ∧ x = p)) := by
  unfold A.addPlayer
  by_cases hp : p = "<world>"
  · rw [if_pos hp]
    simp [hp]
  · rw [if_neg hp]
    show hasKey (ensure0 m.kills p) x = true ↔ _
    rw [hasKey_ensure0]
    simp [hp]

theorem registerKill_totalKills (m : A.matchParser) (k v c : String) :
    (A.registerKill m k v c).totalKills = m.totalKills + 1 := by
  unfold A.registerKill
  dsimp only
  split
  · simp [addPlayer_totalKills]
  · split
    · simp [addPlayer_totalKills]
    · simp [addPlayer_totalKills]

theorem registerKill_players (m : A.matchParser) (k v c : String) :
    (A.registerKill m k v c).players =
      (A.addPlayer (A.addPlayer { m with totalKills := m.totalKills + 1 } k) v).players := by
  unfold A.registerKill
  dsimp only
  split
  · rfl
  · split
    · rfl
    · rfl

theorem registerKill_players_nodup (m : A.matchParser) (k v c : String)
    (h : m.players.Nodup) : (A.registerKill m k v c).players.Nodup := by
  rw [registerKill_players]
  exact addPlayer_players_nodup _ _ (addPlayer_players_nodup _ _ h)

theorem registerKill_keys (m : A.matchParser) (k v c : String)
    (hm : m.kills.map Prod.fst = m.players)
    (hkv : ¬ (k = "<world>" ∧ v = "<world>")) :
    (A.registerKill m k v c).kills.map Prod.fst = (A.registerKill m k v c).players := by
  have h2 := addPlayer_keys { m with totalKills := m.totalKills + 1 } k hm
  have h3 := addPlayer_keys _ v h2
  unfold A.registerKill
  by_cases h1 : k = "<world>"
  · have hv : ¬ v = "<world>" := fun hv => hkv ⟨h1, hv⟩
    have hkey :
        hasKey (A.addPlayer (A.addPlayer { m with totalKills := m.totalKills + 1 } k) v).kills v
          = true :=
      (addPlayer_hasKey _ v v).mpr (Or.inr ⟨hv, rfl⟩)
    dsimp only
    rw [if_pos h1]
    rw [keys_addD_of_hasKey _ _ _ hkey]
    exact h3
  · by_cases hkv2 : k = v
    · dsimp only
      rw [if_neg h1, if_pos hkv2]
      exact h3
    · have hkey :
          hasKey (A.addPlayer (A.addPlayer { m with totalKills := m.totalKills + 1 } k) v).kills k
            = true := by
        apply (addPlayer_hasKey _ v k).mpr
        apply Or.inl
        exact (addPlayer_hasKey _ k k).mpr (Or.inr ⟨h1, rfl⟩)
      dsimp only
      rw [if_neg h1, if_neg hkv2]
      rw [keys_addD_of_hasKey _ _ _ hkey]
      exact h3

/-!
Facts about the variant B accumulator operations.
-/

theorem addPlayerInfo_totalKills (m : B.matchInfo) (p : String) :
    (B.addPlayerInfo m p).totalKills = m.totalKills := by
  unfold B.addPlayerInfo
  split <;> rfl

theorem addPlayerInfo_keys (m : B.matchInfo) (p : String)
    (hm : m.kills.map Prod.fst = m.players) :
    (B.addPlayerInfo m p).kills.map Prod.fst = (B.addPlayerInfo m p).players := by
  unfold B.addPlayerInfo
  split
  · exact hm
  · show (ensure0 m.kills p).map Prod.fst = insertP m.players p
    rw [keys_ensure0]
    unfold insertP
    by_cases hk : hasKey m.kills p
    · have hp : p ∈ m.players := by
        rw [← hm]
        exact (hasKey_iff_mem m.kills p).mp hk
      rw [if_pos hk, if_pos hp]
      exact hm
    · have hp : p ∉ m.players := by
        intro hmem
        apply hk
        apply (hasKey_iff_mem m.kills p).mpr
        rw [hm]
        exact hmem
      rw [if_neg hk, if_neg hp, hm]

theorem addPlayerInfo_hasKey (m : B.matchInfo) (p x : String) :
    hasKey (B.addPlayerInfo m p).kills x = true ↔
      (hasKey m.kills x = true ∨ (¬ p = "<world>" ∧ x = p)) := by
  unfold B.addPlayerInfo
  by_cases hp : p = "<world>"
  · rw [if_pos hp]
    simp [hp]
  · rw [if_neg hp]
    show hasKey (ensure0 m.kills p) x = true ↔ _
    rw [hasKey_ensure0]
    simp [hp]

theorem registerKillEvent_totalKills (m : B.matchInfo) (k v c : String) :
    (B.registerKillEvent m k v c).totalKills = m.totalKills := by
  unfold B.registerKillEvent
  dsimp only
  split
  · simp [addPlayerInfo_totalKills]
  · simp [addPlayerInfo_totalKills]

theorem registerKillEvent_keys (m : B.matchInfo) (k v c : String)
    (hm : m.kills.map Prod.fst = m.players)
    (hkv : ¬ (k = "<world>" ∧ v = "<world>")) :
    (B.registerKillEvent m k v c).kills.map Prod.fst
      = (B.registerKillEvent m k v c).players := by
  have h2 := addPlayerInfo_keys m k hm
  have h3 := addPlayerInfo_keys _ v h2
  unfold B.registerKillEvent
  by_cases h1 : k = "<world>"
  · have hv : ¬ v = "<world>" := fun hv => hkv ⟨h1, hv⟩
    have hkey : hasKey (B.addPlayerInfo (B.addPlayerInfo m k) v).kills v = true :=
      (addPlayerInfo_hasKey _ v v).mpr (Or.inr ⟨hv, rfl⟩)
    dsimp only
    rw [if_pos h1]
    rw [keys_addD_of_hasKey _ _ _ hkey]
    exact h3
  · have hkey : hasKey (B.addPlayerInfo (B.addPlayerInfo m k) v).kills k = true := by
      apply (addPlayerInfo_hasKey _ v k).mpr
      apply Or.inl
      exact (addPlayerInfo_hasKey _ k k).mpr (Or.inr ⟨h1, rfl⟩)
    dsimp only
    rw [if_neg h1]
    rw [keys_addD_of_hasKey _ _ _ hkey]
    exact h3

/-!
Facts about runs of variant A's scan loop.
-/

theorem ParseLogGo_ok_matchList (ls : List String) :
    ∀ (p : A.logParser) (n : Nat) (ms : List Match),
      A.ParseLogGo p n ls = .ok ms → (A.processAll p ls).matchList = ms := by
  induction ls with
  | nil =>
    intro p n ms h
    simp only [A.ParseLogGo] at h
    cases hq : p.evParser with
    | inMatch m =>
      rw [hq] at h
      exact absurd h (by simp)
    | looking =>
      rw [hq] at h
      simp only [Except.ok.injEq] at h
      exact h
  | cons l t ih =>
    intro p n ms h
    simp only [A.ParseLogGo] at h
    cases hl : A.lineHeaderMatch l with
    | none =>
      rw [hl] at h
      exact absurd h (by simp)
    | some ev =>
      rw [hl] at h
      have := ih (A.parseEvent p ev) (n + 1) ms h
      show (A.processAll (A.parseEvent p ((A.lineHeaderMatch l).getD "")) t).matchList = ms
      rw [hl]
      exact this

theorem processAll_inv (I : A.logParser → Prop) (ls : List String) :
    ∀ (p : A.logParser), I p →
      (∀ q l, l ∈ ls → I q → I (A.parseEvent q ((A.lineHeaderMatch l).getD ""))) →
      I (A.processAll p ls) := by
  induction ls with
  | nil =>
    intro p hp _
    exact hp
  | cons l t ih =>
    intro p hp hstep
    show I (A.processAll (A.parseEvent p ((A.lineHeaderMatch l).getD "")) t)
    exact ih _ (hstep p l (List.mem_cons_self l t) hp)
      (fun q l2 hl2 => hstep q l2 (List.mem_cons_of_mem l hl2))

theorem ParseLogGo_malformed (ls : List String) :
    ∀ (i : Nat) (l : String) (p : A.logParser) (n : Nat),
      ls[i]? = some l → A.lineHeaderMatch l = none →
      (ls.take i).all A.headerOk = true →
      A.ParseLogGo p n ls = .error ("line " ++ Nat.repr (n + i) ++ " is malformed") := by
  induction ls with
  | nil =>
    intro i l p n hget _ _
    simp at hget
  | cons l0 t ih =>
    intro i l p n hget hl htake
    cases i with
    | zero =>
      rw [List.getElem?_cons_zero] at hget
      injection hget with hget
      subst hget
      simp only [A.ParseLogGo, hl]
      rfl
    | succ j =>
      rw [List.getElem?_cons_succ] at hget
      simp only [List.take_succ_cons, List.all_cons, Bool.and_eq_true] at htake
      obtain ⟨h0, ht⟩ := htake
      obtain ⟨ev, hev⟩ := Option.isSome_iff_exists.mp h0
      simp only [A.ParseLogGo, hev]
      have harith : n + 1 + j = n + (j + 1) := by omega
      rw [ih j l (A.parseEvent p ev) (n + 1) hget hl ht, harith]

theorem ParseLogGo_open (ls : List String) :
    ∀ (p : A.logParser) (n : Nat),
      (∀ l ∈ ls, A.headerOk l = true) →
      A.isOpen (A.processAll p ls).evParser = true →
      A.ParseLogGo p n ls = .error "log entries ended while a match was still open" := by
  induction ls with
  | nil =>
    intro p n _ hopen
    cases hq : p.evParser with
    | looking =>
      rw [show A.processAll p [] = p from rfl, hq] at hopen
      exact absurd hopen (by simp [A.isOpen])
    | inMatch m =>
      simp only [A.ParseLogGo, hq]
  | cons l t ih =>
    intro p n hall hopen
    have h0 : A.headerOk l = true := hall l (List.mem_cons_self l t)
    obtain ⟨ev, hev⟩ := Option.isSome_iff_exists.mp h0
    simp only [A.ParseLogGo, hev]
    apply ih
    · intro x hx
      exact hall x (List.mem_cons_of_mem l hx)
    · have : A.processAll p (l :: t)
          = A.processAll (A.parseEvent p ((A.lineHeaderMatch l).getD "")) t := rfl
      rw [this, hev] at hopen
      exact hopen

theorem parseEvent_sortedInv (q : A.logParser) (ev : String)
    (h : A.sortedInv q) : A.sortedInv (A.parseEvent q ev) := by
  obtain ⟨h1, h2⟩ := h
  cases hq : q.evParser with
  | looking =>
    unfold A.parseEvent
    rw [hq]
    dsimp only
    by_cases hi : strStartsWith ev "InitGame:"
    · rw [if_pos hi]
      refine ⟨h1, ?_⟩
      intro acc hacc
      cases hacc
      exact List.nodup_nil
    · rw [if_neg hi]
      exact ⟨h1, h2⟩
  | inMatch m =>
    unfold A.parseEvent
    rw [hq]
    dsimp only
    by_cases hd : strStartsWith ev "---"
    · rw [if_pos hd]
      refine ⟨?_, ?_⟩
      · intro x hx
        rcases List.mem_append.mp hx with hx | hx
        · exact h1 x hx
        · rw [List.mem_singleton.mp hx]
          exact ⟨getPlayerList_sorted m, getPlayerList_nodup m (h2 m hq)⟩
      · intro acc hacc
        cases hacc
    · rw [if_neg hd]
      cases hk : A.killExprFind ev with
      | none =>
        dsimp only
        exact ⟨h1, h2⟩
      | some triple =>
        obtain ⟨k, v, c⟩ := triple
        dsimp only
        refine ⟨h1, ?_⟩
        intro acc hacc
        cases hacc
        exact registerKill_players_nodup m k v c (h2 m hq)

theorem parseEvent_keysInv (q : A.logParser) (ev : String)
    (hkev : ∀ k v c, A.killExprFind ev = some (k, v, c) → ¬ (k = "<world>" ∧ v = "<world>"))
    (h : A.keysInv q) : A.keysInv (A.parseEvent q ev) := by
  obtain ⟨h1, h2⟩ := h
  cases hq : q.evParser with
  | looking =>
    unfold A.parseEvent
    rw [hq]
    dsimp only
    by_cases hi : strStartsWith ev "InitGame:"
    · rw [if_pos hi]
      refine ⟨h1, ?_⟩
      intro acc hacc
      cases hacc
      rfl
    · rw [if_neg hi]
      exact ⟨h1, h2⟩
  | inMatch m =>
    unfold A.parseEvent
    rw [hq]
    dsimp only
    by_cases hd : strStartsWith ev "---"
    · rw [if_pos hd]
      refine ⟨?_, ?_⟩
      · intro x hx
        rcases List.mem_append.mp hx with hx | hx
        · exact h1 x hx
        · rw [List.mem_singleton.mp hx]
          show (A.getPlayerList m).length = m.kills.length
          rw [getPlayerList_length]
          have hkeys := congrArg List.length (h2 m hq)
          rw [List.length_map] at hkeys
          exact hkeys.symm
      · intro acc hacc
        cases hacc
    · rw [if_neg hd]
      cases hk : A.killExprFind ev with
      | none =>
        dsimp only
        exact ⟨h1, h2⟩
      | some triple =>
        obtain ⟨k, v, c⟩ := triple
        dsimp only
        refine ⟨h1, ?_⟩
        intro acc hacc
        cases hacc
        exact registerKill_keys m k v c (h2 m hq) (hkev k v c hk)

/-!
The result formatter: the loop of `MarshalJSON` emits exactly the ordered
key/value fields `game_1 … game_N`.
-/

theorem gameKeysFrom_length (i n : Nat) : (gameKeysFrom i n).length = n := by
  simp [gameKeysFrom]

theorem gameKeysFrom_succ (i n : Nat) :
    gameKeysFrom i (n + 1)
      = ("game_" ++ Nat.repr (i + 1)) :: gameKeysFrom (i + 1) n := by
  unfold gameKeysFrom
  rw [List.range_succ_eq_map, List.map_cons, List.map_map]
  refine congrArg₂ List.cons ?_ ?_
  · rfl
  · apply List.map_congr_left
    intro j _
    show "game_" ++ Nat.repr (i + (j + 1) + 1) = "game_" ++ Nat.repr (i + 1 + j + 1)
    have h : i + (j + 1) + 1 = i + 1 + j + 1 := by omega
    rw [h]

theorem specGameKeys_eq_gameKeysFrom (n : Nat) : specGameKeys n = gameKeysFrom 0 n := by
  unfold specGameKeys gameKeysFrom
  apply List.map_congr_left
  intro j _
  have h : j + 1 = 0 + j + 1 := by omega
  rw [← h]

theorem specJoinPairs_cons (enc : Match → String) (p : String × Match)
    (l : List (String × Match)) :
    specJoinPairs enc (p :: l)
      = "\"" ++ p.1 ++ "\":" ++ enc p.2 ++ (if l.isEmpty then "" else ",")
          ++ specJoinPairs enc l := by
  obtain ⟨k, g⟩ := p
  cases l with
  | nil => simp [specJoinPairs]
  | cons q t => rfl

theorem marshalLoop_spec (enc : Match → String) (gs : List Match) :
    ∀ (i : Nat),
      marshalLoop enc (i + gs.length) i gs
        = specJoinPairs enc ((gameKeysFrom i gs.length).zip gs) := by
  induction gs with
  | nil =>
    intro i
    rfl
  | cons g gs ih =>
    intro i
    have hkeys : gameKeysFrom i (g :: gs).length
        = ("game_" ++ Nat.repr (i + 1)) :: gameKeysFrom (i + 1) gs.length := by
      rw [List.length_cons, gameKeysFrom_succ]
    rw [hkeys, List.zip_cons_cons, specJoinPairs_cons]
    show ("\"game_" ++ Nat.repr (i + 1) ++ "\":" ++ enc g ++
        (if i < i + (g :: gs).length - 1 then "," else "") ++
        marshalLoop enc (i + (g :: gs).length) (i + 1) gs) = _
    have hcomma : (if i < i + (g :: gs).length - 1 then ("," : String) else "")
        = (if ((gameKeysFrom (i + 1) gs.length).zip gs).isEmpty then ("" : String) else ",") := by
      cases gs with
      | nil =>
        rw [if_neg (by simp)]
        rfl
      | cons q t =>
        rw [if_pos (by simp only [List.length_cons]; omega)]
        rw [List.length_cons, gameKeysFrom_succ, List.zip_cons_cons]
        rfl
    rw [hcomma]
    have htot : i + (g :: gs).length = (i + 1) + gs.length := by
      simp [List.length_cons]
      omega
    rw [htot, ih (i + 1)]
    simp [← String.append_assoc]

end Qlp

example :
    Qlp.A.lineHeaderMatch "  0:00 InitGame:" = some "InitGame:" := by decide

example :
    Qlp.A.lineHeaderMatch " 26  0:00 ------------------------------------------------------------"
      = some "------------------------------------------------------------" := by decide

example : Qlp.A.lineHeaderMatch "BadLine" = none := by decide

example :
    Qlp.A.killExprFind "Kill: 0 1 2: Isgalamido killed Mocinha by MOD_ROCKET"
      = some ("Isgalamido", "Mocinha", "MOD_ROCKET") := by decide

example :
    Qlp.A.killExprFind "Kill: 0 1 2: <world> killed Mocinha by MOD_TRIGGER_HURT"
      = some ("<world>", "Mocinha", "MOD_TRIGGER_HURT") := by decide

example : Qlp.A.killExprFind "ShutdownGame:" = none := by decide

example :
    Qlp.A.ParseLog ["  0:00 InitGame:", "  0:00 Kill: 0 1 2: Isgalamido killed Mocinha by MOD_ROCKET",
      "  0:00 ------------------------------------------------------------"]
      = .ok [⟨1, ["Isgalamido", "Mocinha"], [("Isgalamido", 1), ("Mocinha", 0)], [("MOD_ROCKET", 1)]⟩] := by
  rfl

example :
    Qlp.B.ParseLog ["  0:00 InitGame:", "  0:00 Kill: 0 1 2: A killed B by MOD_ROCKET"]
      = .ok [⟨0, ["A", "B"], [("A", 1), ("B", 0)], [("MOD_ROCKET", 1)]⟩] := by rfl

example : Qlp.B.ParseLog ["BadLine"] = .ok [⟨0, [], [], []⟩] := by rfl

example :
    Qlp.B.ParseLog ["  0:00 ------------------------------------------------------------", "  0:00 InitGame:"]
      = .ok [⟨0, [], [], []⟩] := by rfl

example :
    Qlp.B.eventExprFind "  0:00 ------------------------------------------------------------" = none := by decide

example :
    Qlp.B.killExprFindB "  0:00 Kill: 0 1 2: Zeh killed Dono da Bola by MOD_ROCKET"
      = some ("Zeh", "Dono da Bola", "MOD_ROCKET") := by decide


/-!
Claim theorems.
-/

/-- Claim C1: the claim states that every kill event increments `totalKills`
by exactly one in both variants.  This holds for variant A's `registerKill`,
but variant B's `registerKillEvent` never touches `totalKills` (second
conjunct evaluates a full variant-B parse of a log with one kill event and
shows the finalized match reports zero total kills while the kill was
registered in the kills map), contradicting the `Match` documentation and the
repository's own `TestTotalKillsCounting`/`TestParseLog` assertions. -/
theorem C1_totalKills :
    (∀ (m : Qlp.B.matchInfo) (k v c : String),
        (Qlp.B.registerKillEvent m k v c).totalKills = m.totalKills)
    ∧ (∀ (m : Qlp.A.matchParser) (k v c : String),
        (Qlp.A.registerKill m k v c).totalKills = m.totalKills + 1)
    ∧ Qlp.B.ParseLog ["  0:00 InitGame:", "  0:00 Kill: 0 1 2: A killed B by MOD_ROCKET"]
        = .ok [⟨0, ["A", "B"], [("A", 1), ("B", 0)], [("MOD_ROCKET", 1)]⟩] :=
  ⟨Qlp.registerKillEvent_totalKills, Qlp.registerKill_totalKills, rfl⟩

/-- Claim C2: the claim states that in the explicit-closing variant a
`ShutdownGame` token and a divider line have the identical effect of
finalizing the match.  In the code only a `---` payload finalizes: on
`ShutdownGame:` the match parser returns itself with no match appended
(first conjunct), while a divider finalizes and appends (second conjunct);
the third conjunct shows `InitGame:` opening a match.  This contradicts the
repository's own `TestEventParsingShutdownGame`. -/
theorem C2_shutdownNotHandled :
    (∀ (m : Qlp.A.matchParser) (ms : List Qlp.Match),
        Qlp.A.parseEvent ⟨.inMatch m, ms⟩ "ShutdownGame:" = ⟨.inMatch m, ms⟩)
    ∧ Qlp.A.parseEvent ⟨.inMatch Qlp.A.newMatchParser, []⟩
        "------------------------------------------------------------"
        = ⟨.looking, [⟨0, [], [], []⟩]⟩
    ∧ Qlp.A.parseEvent Qlp.A.newLogParser "InitGame:"
        = ⟨.inMatch Qlp.A.newMatchParser, []⟩ := by
  refine ⟨?_, rfl, rfl⟩
  intro m ms
  have h1 : Qlp.strStartsWith "ShutdownGame:" "---" = false := rfl
  have h2 : Qlp.A.killExprFind "ShutdownGame:" = none := rfl
  simp [Qlp.A.parseEvent, h1, h2]

/-- Claim C3 (counterexample): variant B's `ParseLog` does not abort on a
line lacking the header prefix; on a log whose only line is `BadLine` it
returns one (empty) match and no error, where the claim demands an error
naming line 1 and no matches. -/
theorem C3_counter : Qlp.B.ParseLog ["BadLine"] = .ok [⟨0, [], [], []⟩] :=
  rfl

/-- Claim C3 (amended: restricted to the state-machine variant): if line `i`
(0-based) lacks the header prefix and every earlier line has it, variant A's
`ParseLog` aborts with an error naming the 1-indexed line and returns no
matches. -/
theorem C3_malformedAbort (lines : List String) (i : Nat) (l : String)
    (hget : lines[i]? = some l) (hl : Qlp.A.lineHeaderMatch l = none)
    (hpre : (lines.take i).all Qlp.A.headerOk = true) :
    Qlp.A.ParseLog lines = .error ("line " ++ Nat.repr (i + 1) ++ " is malformed") := by
  have h := Qlp.ParseLogGo_malformed lines i l Qlp.A.newLogParser 1 hget hl hpre
  have harith : 1 + i = i + 1 := by omega
  rw [harith] at h
  exact h

/-- Witness for C3: a malformed second line aborts variant A's parse naming
line 2. -/
theorem C3_witness :
    Qlp.A.ParseLog ["  0:00 InitGame:", "BadLine"] = .error "line 2 is malformed" :=
  C3_malformedAbort ["  0:00 InitGame:", "BadLine"] 1 "BadLine" rfl rfl rfl

/-- Claim C4 (counterexample): variant B's `ParseLog` has no
unterminated-match error: on a log that opens a match with `InitGame` and
ends, it returns one (empty) match and no error, where the claim demands the
error "log entries ended while a match was still open" and no matches. -/
theorem C4_counter :
    Qlp.B.ParseLog
        ["  0:00 ------------------------------------------------------------",
          "  0:00 InitGame:"]
      = .ok [⟨0, [], [], []⟩] :=
  rfl

/-- Claim C4 (amended: restricted to the state-machine variant): when every
line passes the header check and processing all lines leaves the state
machine inside a match, variant A's `ParseLog` fails with the explicit
unterminated-match error and returns no matches. -/
theorem C4_openEndError (lines : List String)
    (hall : lines.all Qlp.A.headerOk = true)
    (hopen : Qlp.A.isOpen (Qlp.A.processAll Qlp.A.newLogParser lines).evParser = true) :
    Qlp.A.ParseLog lines = .error "log entries ended while a match was still open" := by
  apply Qlp.ParseLogGo_open lines Qlp.A.newLogParser 1 ?_ hopen
  intro x hx
  exact List.all_eq_true.mp hall x hx

/-- Witness for C4: a log consisting of a single `InitGame:` line fails with
the unterminated-match error. -/
theorem C4_witness :
    Qlp.A.ParseLog ["  0:00 InitGame:"]
      = .error "log entries ended while a match was still open" :=
  C4_openEndError ["  0:00 InitGame:"] rfl rfl

/-- Claim C5: in both variants, an environment kill decrements the victim's
differential by one relative to its defaulted value, and creates no entry for
the sentinel in the kills map or the player set. -/
theorem C5_worldKill (mA : Qlp.A.matchParser) (mB : Qlp.B.matchInfo)
    (killed cause : String) (hkilled : killed ≠ "<world>")
    (hA1 : Qlp.hasKey mA.kills "<world>" = false) (hA2 : "<world>" ∉ mA.players)
    (hB1 : Qlp.hasKey mB.kills "<world>" = false) (hB2 : "<world>" ∉ mB.players) :
    Qlp.getD (Qlp.A.registerKill mA "<world>" killed cause).kills killed
        = Qlp.getD mA.kills killed - 1
    ∧ Qlp.hasKey (Qlp.A.registerKill mA "<world>" killed cause).kills "<world>" = false
    ∧ "<world>" ∉ (Qlp.A.registerKill mA "<world>" killed cause).players
    ∧ Qlp.getD (Qlp.B.registerKillEvent mB "<world>" killed cause).kills killed
        = Qlp.getD mB.kills killed - 1
    ∧ Qlp.hasKey (Qlp.B.registerKillEvent mB "<world>" killed cause).kills "<world>" = false
    ∧ "<world>" ∉ (Qlp.B.registerKillEvent mB "<world>" killed cause).players := by
  have hredA : Qlp.A.registerKill mA "<world>" killed cause
      = ⟨mA.totalKills + 1, Qlp.insertP mA.players killed,
          Qlp.addD (Qlp.ensure0 mA.kills killed) killed (-1),
          Qlp.addD mA.killsByMeans cause 1⟩ := by
    simp [Qlp.A.registerKill, Qlp.A.addPlayer, hkilled]
  have hredB : Qlp.B.registerKillEvent mB "<world>" killed cause
      = ⟨mB.totalKills, Qlp.insertP mB.players killed,
          Qlp.addD (Qlp.ensure0 mB.kills killed) killed (-1),
          Qlp.addD mB.killsByMeans cause 1⟩ := by
    simp [Qlp.B.registerKillEvent, Qlp.B.addPlayerInfo, hkilled]
  rw [hredA, hredB]
  refine ⟨?_, ?_, ?_, ?_, ?_, ?_⟩
  · show Qlp.getD (Qlp.addD (Qlp.ensure0 mA.kills killed) killed (-1)) killed = _
    rw [Qlp.getD_addD_self, Qlp.getD_ensure0]
    omega
  · show Qlp.hasKey (Qlp.addD (Qlp.ensure0 mA.kills killed) killed (-1)) "<world>" = false
    cases hhk : Qlp.hasKey (Qlp.addD (Qlp.ensure0 mA.kills killed) killed (-1)) "<world>" with
    | false => rfl
    | true =>
      exfalso
      rcases (Qlp.hasKey_addD _ _ _ _).mp hhk with h | h
      · rcases (Qlp.hasKey_ensure0 _ _ _).mp h with h2 | h2
        · rw [hA1] at h2
          exact Bool.noConfusion h2
        · exact hkilled h2.symm
      · exact hkilled h.symm
  · show "<world>" ∉ Qlp.insertP mA.players killed
    intro hmem
    rcases (Qlp.mem_insertP _ _ _).mp hmem with h | h
    · exact hA2 h
    · exact hkilled h.symm
  · show Qlp.getD (Qlp.addD (Qlp.ensure0 mB.kills killed) killed (-1)) killed = _
    rw [Qlp.getD_addD_self, Qlp.getD_ensure0]
    omega
  · show Qlp.hasKey (Qlp.addD (Qlp.ensure0 mB.kills killed) killed (-1)) "<world>" = false
    cases hhk : Qlp.hasKey (Qlp.addD (Qlp.ensure0 mB.kills killed) killed (-1)) "<world>" with
    | false => rfl
    | true =>
      exfalso
      rcases (Qlp.hasKey_addD _ _ _ _).mp hhk with h | h
      · rcases (Qlp.hasKey_ensure0 _ _ _).mp h with h2 | h2
        · rw [hB1] at h2
          exact Bool.noConfusion h2
        · exact hkilled h2.symm
      · exact hkilled h.symm
  · show "<world>" ∉ Qlp.insertP mB.players killed
    intro hmem
    rcases (Qlp.mem_insertP _ _ _).mp hmem with h | h
    · exact hB2 h
    · exact hkilled h.symm

/-- Witness for C5: an environment kill on concrete accumulators; the victim
with differential 2 in variant A drops to 1, the fresh victim in variant B
drops to -1, and no sentinel entry appears. -/
theorem C5_witness :
    Qlp.getD (Qlp.A.registerKill ⟨0, ["Mocinha"], [("Mocinha", 2)], []⟩
        "<world>" "Mocinha" "MOD_ROCKET").kills "Mocinha" = 1
    ∧ Qlp.hasKey (Qlp.A.registerKill ⟨0, ["Mocinha"], [("Mocinha", 2)], []⟩
        "<world>" "Mocinha" "MOD_ROCKET").kills "<world>" = false
    ∧ "<world>" ∉ (Qlp.A.registerKill ⟨0, ["Mocinha"], [("Mocinha", 2)], []⟩
        "<world>" "Mocinha" "MOD_ROCKET").players
    ∧ Qlp.getD (Qlp.B.registerKillEvent Qlp.B.newMatchInfo
        "<world>" "Mocinha" "MOD_ROCKET").kills "Mocinha" = -1
    ∧ Qlp.hasKey (Qlp.B.registerKillEvent Qlp.B.newMatchInfo
        "<world>" "Mocinha" "MOD_ROCKET").kills "<world>" = false
    ∧ "<world>" ∉ (Qlp.B.registerKillEvent Qlp.B.newMatchInfo
        "<world>" "Mocinha" "MOD_ROCKET").players :=
  C5_worldKill ⟨0, ["Mocinha"], [("Mocinha", 2)], []⟩ Qlp.B.newMatchInfo
    "Mocinha" "MOD_ROCKET" (by decide) (by decide) (by decide) (by decide) (by decide)

/-- Claim C6 (counterexample): in variant B a self-kill by `Bob` increments
`Bob`'s differential from 0 to 1 (the code has no self-kill case) and leaves
`totalKills` at 0, where the claim demands no differential change and a
`totalKills` increment. -/
theorem C6_counter :
    Qlp.getD (Qlp.B.registerKillEvent Qlp.B.newMatchInfo "Bob" "Bob" "MOD_ROCKET").kills "Bob" = 1
    ∧ (Qlp.B.registerKillEvent Qlp.B.newMatchInfo "Bob" "Bob" "MOD_ROCKET").totalKills = 0 :=
  ⟨rfl, rfl⟩

/-- Claim C6 (amended: restricted to the state-machine variant): a self-kill
by a non-sentinel player changes no kills differential value, while
`totalKills` and the cause's entry are each incremented by one. -/
theorem C6_selfKillNoop (m : Qlp.A.matchParser) (p cause : String)
    (hp : p ≠ "<world>") :
    (∀ q, Qlp.getD (Qlp.A.registerKill m p p cause).kills q = Qlp.getD m.kills q)
    ∧ (Qlp.A.registerKill m p p cause).totalKills = m.totalKills + 1
    ∧ Qlp.getD (Qlp.A.registerKill m p p cause).killsByMeans cause
        = Qlp.getD m.killsByMeans cause + 1 := by
  have hred : Qlp.A.registerKill m p p cause
      = ⟨m.totalKills + 1, Qlp.insertP (Qlp.insertP m.players p) p,
          Qlp.ensure0 (Qlp.ensure0 m.kills p) p,
          Qlp.addD m.killsByMeans cause 1⟩ := by
    simp [Qlp.A.registerKill, Qlp.A.addPlayer, hp]
  rw [hred]
  refine ⟨?_, rfl, ?_⟩
  · intro q
    show Qlp.getD (Qlp.ensure0 (Qlp.ensure0 m.kills p) p) q = _
    rw [Qlp.getD_ensure0, Qlp.getD_ensure0]
  · show Qlp.getD (Qlp.addD m.killsByMeans cause 1) cause = _
    rw [Qlp.getD_addD_self]

/-- Witness for C6: a self-kill on a fresh variant-A accumulator: every
differential still reads 0, the total becomes 1 and the cause is counted. -/
theorem C6_witness :
    (∀ q, Qlp.getD (Qlp.A.registerKill Qlp.A.newMatchParser "Bob" "Bob" "MOD_ROCKET").kills q
        = Qlp.getD Qlp.A.newMatchParser.kills q)
    ∧ (Qlp.A.registerKill Qlp.A.newMatchParser "Bob" "Bob" "MOD_ROCKET").totalKills = 1
    ∧ Qlp.getD (Qlp.A.registerKill Qlp.A.newMatchParser "Bob" "Bob" "MOD_ROCKET").killsByMeans
        "MOD_ROCKET" = 1 :=
  C6_selfKillNoop Qlp.A.newMatchParser "Bob" "MOD_ROCKET" (by decide)

/-- Claim C7 (counterexample): variant B's `getPlayerList` applies no sort, so
a finalized match produced by variant B's `ParseLog` carries its players in
map-iteration order (modelled as insertion order; Go guarantees no order at
all), here `["Zeh", "Abc"]`, which is not ascending. -/
theorem C7_counter :
    Qlp.B.ParseLog ["  0:00 InitGame:", "  0:00 Kill: 0 1 2: Zeh killed Abc by MOD_ROCKET"]
      = .ok [⟨0, ["Zeh", "Abc"], [("Zeh", 1), ("Abc", 0)], [("MOD_ROCKET", 1)]⟩]
    ∧ ¬ List.Sorted (· ≤ ·) (["Zeh", "Abc"] : List String) := by
  refine ⟨rfl, ?_⟩
  intro h
  have h1 : ("Zeh" : String) ≤ "Abc" :=
    (List.sorted_cons.mp h).1 "Abc" (List.mem_singleton.mpr rfl)
  have h2 := (Qlp.strLeRel_iff_le "Zeh" "Abc").mpr h1
  exact absurd h2 (by decide)

/-- Claim C7 (amended: restricted to the state-machine variant): every match
finalized by variant A's `ParseLog` has its players sorted ascending and free
of duplicates. -/
theorem C7_sortedPlayers (lines : List String) (ms : List Qlp.Match)
    (h : Qlp.A.ParseLog lines = .ok ms) :
    ∀ x ∈ ms, List.Sorted (· ≤ ·) x.Players ∧ x.Players.Nodup := by
  have hm := Qlp.ParseLogGo_ok_matchList lines Qlp.A.newLogParser 1 ms h
  have hinv : Qlp.A.sortedInv (Qlp.A.processAll Qlp.A.newLogParser lines) := by
    apply Qlp.processAll_inv Qlp.A.sortedInv lines Qlp.A.newLogParser
    · refine ⟨?_, ?_⟩
      · intro x hx
        exact absurd hx (List.not_mem_nil x)
      · intro acc hacc
        cases hacc
    · intro q l _ hq
      exact Qlp.parseEvent_sortedInv q _ hq
  intro x hx
  apply hinv.1 x
  rw [hm]
  exact hx

/-- Witness for C7: the roster of the match parsed from a concrete two-player
log is sorted and duplicate-free. -/
theorem C7_witness :
    List.Sorted (· ≤ ·) (["Isgalamido", "Mocinha"] : List String)
    ∧ (["Isgalamido", "Mocinha"] : List String).Nodup :=
  C7_sortedPlayers
    ["  0:00 InitGame:", "  0:00 Kill: 0 1 2: Isgalamido killed Mocinha by MOD_ROCKET",
      "  0:00 ------------------------------------------------------------"]
    [⟨1, ["Isgalamido", "Mocinha"], [("Isgalamido", 1), ("Mocinha", 0)], [("MOD_ROCKET", 1)]⟩]
    rfl
    ⟨1, ["Isgalamido", "Mocinha"], [("Isgalamido", 1), ("Mocinha", 0)], [("MOD_ROCKET", 1)]⟩
    (List.mem_singleton.mpr rfl)

/-- Claim C8 (counterexample): a kill event whose killer and victim are both
the sentinel (`<world> killed <world>`) is accepted by the kill pattern and
decrements `kills["<world>"]`, creating a kills entry with no matching
player: even variant A's parser then finalizes a match with 0 players and 1
kills key. -/
theorem C8_counter :
    Qlp.A.ParseLog
        ["  0:00 InitGame:",
          "  0:00 Kill: 0 1 2: <world> killed <world> by MOD_TRIGGER_HURT",
          "  0:00 ------------------------------------------------------------"]
      = .ok [⟨1, [], [("<world>", -1)], [("MOD_TRIGGER_HURT", 1)]⟩]
    ∧ (⟨1, [], [("<world>", -1)], [("MOD_TRIGGER_HURT", 1)]⟩ : Qlp.Match).Players.length
        ≠ (⟨1, [], [("<world>", -1)], [("MOD_TRIGGER_HURT", 1)]⟩ : Qlp.Match).Kills.length :=
  ⟨rfl, by decide⟩

/-- Claim C8 (amended: provided no kill event names the sentinel as both
killer and victim): every match finalized by variant A's `ParseLog` has as
many roster entries as kills keys, and the keys/roster alignment is preserved
by every kill registration in both variants. -/
theorem C8_rosterKillsAligned :
    (∀ (lines : List String) (ms : List Qlp.Match),
        lines.all Qlp.A.killOK = true → Qlp.A.ParseLog lines = .ok ms →
        ∀ x ∈ ms, x.Players.length = x.Kills.length)
    ∧ (∀ (m : Qlp.A.matchParser) (k v c : String),
        m.kills.map Prod.fst = m.players → ¬ (k = "<world>" ∧ v = "<world>") →
        (Qlp.A.registerKill m k v c).kills.map Prod.fst
          = (Qlp.A.registerKill m k v c).players)
    ∧ (∀ (m : Qlp.B.matchInfo) (k v c : String),
        m.kills.map Prod.fst = m.players → ¬ (k = "<world>" ∧ v = "<world>") →
        (Qlp.B.registerKillEvent m k v c).kills.map Prod.fst
          = (Qlp.B.registerKillEvent m k v c).players) := by
  refine ⟨?_, Qlp.registerKill_keys, Qlp.registerKillEvent_keys⟩
  intro lines ms hall hok x hx
  have hm := Qlp.ParseLogGo_ok_matchList lines Qlp.A.newLogParser 1 ms hok
  have hinv : Qlp.A.keysInv (Qlp.A.processAll Qlp.A.newLogParser lines) := by
    apply Qlp.processAll_inv Qlp.A.keysInv lines Qlp.A.newLogParser
    · refine ⟨?_, ?_⟩
      · intro y hy
        exact absurd hy (List.not_mem_nil y)
      · intro acc hacc
        cases hacc
    · intro q l hl hq
      apply Qlp.parseEvent_keysInv q _ ?_ hq
      intro k v c heq hand
      obtain ⟨h1, h2⟩ := hand
      have hkl : Qlp.A.killOK l = true := List.all_eq_true.mp hall l hl
      unfold Qlp.A.killOK at hkl
      cases hline : Qlp.A.lineHeaderMatch l with
      | none =>
        rw [hline] at heq
        have hnone : Qlp.A.killExprFind ((none : Option String).getD "") = none := rfl
        rw [hnone] at heq
        exact Option.noConfusion heq
      | some ev =>
        rw [hline] at heq hkl
        dsimp only at hkl
        have hev : ((some ev : Option String).getD "") = ev := rfl
        rw [hev] at heq
        rw [heq] at hkl
        dsimp only at hkl
        simp [h1, h2] at hkl
  apply hinv.1 x
  rw [hm]
  exact hx

/-- Witness for C8: the match parsed from a concrete log with one ordinary
kill has as many players as kills keys. -/
theorem C8_witness :
    (⟨1, ["Isgalamido", "Mocinha"], [("Isgalamido", 1), ("Mocinha", 0)],
        [("MOD_ROCKET", 1)]⟩ : Qlp.Match).Players.length
      = (⟨1, ["Isgalamido", "Mocinha"], [("Isgalamido", 1), ("Mocinha", 0)],
          [("MOD_ROCKET", 1)]⟩ : Qlp.Match).Kills.length :=
  C8_rosterKillsAligned.1
    ["  0:00 InitGame:", "  0:00 Kill: 0 1 2: Isgalamido killed Mocinha by MOD_ROCKET",
      "  0:00 ------------------------------------------------------------"]
    [⟨1, ["Isgalamido", "Mocinha"], [("Isgalamido", 1), ("Mocinha", 0)], [("MOD_ROCKET", 1)]⟩]
    (by decide) rfl
    ⟨1, ["Isgalamido", "Mocinha"], [("Isgalamido", 1), ("Mocinha", 0)], [("MOD_ROCKET", 1)]⟩
    (List.mem_singleton.mpr rfl)

/-- Claim C9: serializing a match sequence of length N produces the JSON
object whose ordered fields are exactly `game_1 … game_N` (1-indexed, in
sequence order, no gaps or reordering), each mapped to the corresponding
match's serialization; the key list has one key per match. -/
theorem C9_marshalKeys :
    ∀ (enc : Qlp.Match → String) (ms : List Qlp.Match),
      Qlp.MarshalJSON enc ms = Qlp.specMarshal enc ms
      ∧ (Qlp.specGameKeys ms.length).length = ms.length := by
  intro enc ms
  refine ⟨?_, by simp [Qlp.specGameKeys]⟩
  unfold Qlp.MarshalJSON Qlp.specMarshal
  rw [Qlp.specGameKeys_eq_gameKeysFrom]
  have h0 : ms.length = 0 + ms.length := (Nat.zero_add ms.length).symm
  conv_lhs => rw [h0]
  rw [Qlp.marshalLoop_spec enc ms 0]

/-- Claim C10: in the state-machine variant, a line that is empty or whose
first character is no digit, colon or whitespace is exactly a line the header
expression rejects (first conjunct: the regex characterization), and such a
line makes `ParseLog` abort naming its 1-indexed position when all earlier
lines pass the header check (second conjunct); blank lines are not skipped. -/
theorem C10_blankLineMalformed :
    (∀ l : String, Qlp.A.lineHeaderMatch l = none ↔ Qlp.noHeaderStart l = true)
    ∧ (∀ (lines : List String) (i : Nat) (l : String),
        lines[i]? = some l → Qlp.noHeaderStart l = true →
        (lines.take i).all Qlp.A.headerOk = true →
        Qlp.A.ParseLog lines
          = .error ("line " ++ Nat.repr (i + 1) ++ " is malformed")) := by
  have hiff : ∀ l : String, Qlp.A.lineHeaderMatch l = none ↔ Qlp.noHeaderStart l = true := by
    intro l
    obtain ⟨d⟩ := l
    cases d with
    | nil => decide
    | cons c cs =>
      by_cases hc : Qlp.headerClass c = true
      · constructor
        · intro h
          exfalso
          unfold Qlp.A.lineHeaderMatch at h
          cases halt1 : Qlp.A.matchAlt1 (String.mk (c :: cs)).data with
          | some r =>
            rw [halt1] at h
            exact Option.noConfusion h
          | none =>
            rw [halt1] at h
            have halt2 : Qlp.A.matchAlt2 (String.mk (c :: cs)).data
                = some ((c :: cs).dropWhile Qlp.headerClass) := by
              unfold Qlp.A.matchAlt2
              rw [if_neg ?_]
              intro habs
              rw [List.takeWhile_cons_of_pos hc] at habs
              exact List.noConfusion (List.isEmpty_iff.mp habs)
            rw [halt2] at h
            exact Option.noConfusion h
        · intro h
          exfalso
          have hns : Qlp.noHeaderStart (String.mk (c :: cs)) = !Qlp.headerClass c := rfl
          rw [hns, hc] at h
          exact Bool.noConfusion h
      · have hcf : Qlp.headerClass c = false := by
          revert hc
          cases Qlp.headerClass c
          · intro _
            rfl
          · intro hc
            exact absurd rfl hc
        have hparts := hcf
        unfold Qlp.headerClass at hparts
        rw [Bool.or_eq_false_iff, Bool.or_eq_false_iff] at hparts
        obtain ⟨⟨hd, hs⟩, hcol⟩ := hparts
        have h1 : Qlp.A.matchAlt1 (c :: cs) = none := by
          unfold Qlp.A.matchAlt1
          rw [List.dropWhile_cons_of_neg (by simp [hs])]
          dsimp only
          rw [List.takeWhile_cons_of_neg (by simp [hd])]
          rfl
        have h2 : Qlp.A.matchAlt2 (c :: cs) = none := by
          unfold Qlp.A.matchAlt2
          rw [List.takeWhile_cons_of_neg (by simp [hcf])]
          rfl
        constructor
        · intro _
          have hns : Qlp.noHeaderStart (String.mk (c :: cs)) = !Qlp.headerClass c := rfl
          rw [hns, hcf]
          rfl
        · intro _
          unfold Qlp.A.lineHeaderMatch
          have hdata : (String.mk (c :: cs)).data = c :: cs := rfl
          rw [hdata, h1, h2]
  refine ⟨hiff, ?_⟩
  intro lines i l hget hbad hpre
  have hl : Qlp.A.lineHeaderMatch l = none := (hiff l).mpr hbad
  have h := Qlp.ParseLogGo_malformed lines i l Qlp.A.newLogParser 1 hget hl hpre
  have harith : 1 + i = i + 1 := by omega
  rw [harith] at h
  exact h

/-- Witness for C10: an empty second line aborts variant A's parse naming
line 2. -/
theorem C10_witness :
    Qlp.A.ParseLog ["  0:00 InitGame:", "", "  0:00 InitGame:"]
      = .error "line 2 is malformed" :=
  C10_blankLineMalformed.2 ["  0:00 InitGame:", "", "  0:00 InitGame:"] 1 "" rfl rfl rfl
